import Mathlib

/-!
Shallow embedding of the `lib/consensus` subsystem (engine, stability
classifier, quote aggregator, quote extractor, config merge) of the
theory-forge repository, with theorems settling the frozen claims.

Modelling conventions:
* Python floats are modelled as exact rationals `ℚ`; the one value the code
  can produce that is not rational is `float('inf')` (the coefficient of
  variation when the mean is 0 and the std is positive), modelled by the
  two-constructor type `QF` below.
* The square root used by `statistics.stdev` and `math.sqrt` is modelled by
  `qsqrt`, an exact-on-perfect-squares rational square root that preserves
  sign and zeroness (`qsqrt q = 0 ↔ q.num ≤ 0`, `0 < qsqrt q` for `0 < q`);
  every concrete sample list appearing in the claims has a perfect-square
  variance, where `qsqrt` agrees with the real square root.
* Python dicts are modelled as insertion-ordered association lists, which is
  faithful to CPython's ordered dicts (relevant for first-seen quote order).
-/

namespace Consensus

/-- StabilityRating enum from lib/consensus/stability.py. -/
inductive StabilityRating where
  | high
  | medium
  | low
  | unknown
deriving DecidableEq, Repr

/-- Model of a Python float that may be `float('inf')`: either a finite
rational or positive infinity. -/
inductive QF where
  | fin : ℚ → QF
  | inf : QF
deriving DecidableEq, Repr

/-- Comparison `cv < threshold` between a possibly-infinite float and a finite
threshold, as IEEE comparison does it: `inf < t` is false. -/
def QF.ltq : QF → ℚ → Bool
  | .fin q, t => decide (q < t)
  | .inf, _ => false

/-- The stability-relevant configuration keys, with the default values used by
the `config.get(key, default)` calls in stability.py and engine.py (the same
values as DEFAULT_CONFIG in config.py). -/
structure Config where
  high_stability_cv : ℚ := 1/10
  medium_stability_cv : ℚ := 1/4
  quote_high_stability : ℚ := 3/4
  quote_medium_stability : ℚ := 1/2
deriving Repr

/-- DEFAULT_CONFIG from config.py, restricted to the threshold keys. -/
def DEFAULT_CONFIG : Config := {}

/-- statistics.mean: sum divided by count. -/
def qmean (values : List ℚ) : ℚ := values.sum / values.length

/-- statistics.median: sort, take the middle element (odd length) or the
average of the two middle elements (even length). -/
def qmedian (values : List ℚ) : ℚ :=
  let s := values.mergeSort (fun a b => decide (a ≤ b))
  let n := values.length
  if n % 2 = 1 then s.getD (n / 2) 0
  else (s.getD (n / 2 - 1) 0 + s.getD (n / 2) 0) / 2

/-- Sample variance (the square of statistics.stdev): sum of squared
deviations from the mean divided by n - 1. Meaningful only for n ≥ 2, which
is how stability.py guards its use. -/
def qvariance (values : List ℚ) : ℚ :=
  ((values.map (fun x => (x - qmean values) ^ 2)).sum) / ((values.length : ℚ) - 1)

/-- Rational square root standing in for math.sqrt: exact on rationals that
are squares (numerator and denominator perfect squares), the floor-style
`Int.sqrt`/`Nat.sqrt` approximation otherwise. It is nonnegative and is zero
exactly on nonpositive inputs, which is all the stability theorems use beyond
the perfect-square cases. -/
def qsqrt (q : ℚ) : ℚ := (Int.sqrt q.num : ℚ) / (Nat.sqrt q.den : ℚ)

/-- The small-sample 95% t-multiplier table from compute_stability, with its
`t_values.get(n, 2.0)` default. The source's decimal literals (12.71, 4.30,
…) are written as the equal fractions over 100. -/
def t_table (n : Nat) : ℚ :=
  if n = 2 then 1271/100 else if n = 3 then 430/100 else if n = 4 then 318/100
  else if n = 5 then 278/100 else if n = 6 then 257/100 else if n = 7 then 245/100
  else if n = 8 then 236/100 else if n = 9 then 231/100 else if n = 10 then 226/100
  else if n = 15 then 214/100 else if n = 20 then 209/100 else if n = 25 then 206/100
  else 2

/-- The t_value selection of compute_stability: z = 1.96 (= 49/25) for
n ≥ 30, the lookup table below that. -/
def t_value (n : Nat) : ℚ := if 30 ≤ n then 49/25 else t_table n

/-- MetricConsensus dataclass from engine.py, with the dataclass defaults. -/
structure MetricConsensus where
  name : String
  values : List ℚ
  mean : ℚ := 0
  median : ℚ := 0
  std : ℚ := 0
  ci_lower : ℚ := 0
  ci_upper : ℚ := 0
  cv : QF := .fin 0
  stability : StabilityRating := .unknown
deriving Repr

/-- The statistics-filling part of compute_stability (stability.py), for a
nonempty sample list: mean and median always; for n ≥ 2 the sample std, the
t- or z-based 95% confidence interval (z = 1.96 = 49/25 for n ≥ 30) and the
possibly-infinite CV; for n = 1 zero std, a degenerate interval and zero CV. -/
def fillStats (metric : MetricConsensus) : MetricConsensus :=
  let values := metric.values
  let n := values.length
  let mean := qmean values
  let median := qmedian values
  if 1 < n then
    let std := qsqrt (qvariance values)
    let margin := t_value n * (std / qsqrt (n : ℚ))
    let cv : QF :=
      if mean ≠ 0 then .fin |std / mean|
      else if 0 < std then .inf else .fin 0
    { metric with
      mean := mean, median := median, std := std,
      ci_lower := mean - margin, ci_upper := mean + margin, cv := cv }
  else
    { metric with
      mean := mean, median := median, std := 0,
      ci_lower := mean, ci_upper := mean, cv := .fin 0 }

/-- The rating-assignment tail of compute_stability: UNKNOWN below three
samples, else classification of the CV against the thresholds. -/
def assignRating (m : MetricConsensus) (config : Config) : MetricConsensus :=
  { m with stability :=
      if m.values.length < 3 then StabilityRating.unknown
      else if m.cv.ltq config.high_stability_cv then .high
      else if m.cv.ltq config.medium_stability_cv then .medium
      else .low }

/-- compute_stability from stability.py: empty values short-circuit to
UNKNOWN, otherwise fill the statistics and assign the rating. -/
def compute_stability (metric : MetricConsensus) (config : Config) : MetricConsensus :=
  if metric.values = [] then
    { metric with stability := .unknown }
  else
    assignRating (fillStats metric) config

/-- One quote record as produced by a quote extractor: the dict with keys
"text", "informant", "context" built in extractors.py. -/
structure Quote where
  text : String
  informant : String
  context : String
deriving DecidableEq, Repr

/-- The per-normalized-text accumulator entry of _aggregate_quotes:
`quote_counts[norm] = {"text":…, "informant":…, "context":…, "count":…}`. -/
structure QData where
  text : String
  informant : String
  context : String
  count : Nat
deriving DecidableEq, Repr

/-- QuoteConsensus dataclass from engine.py, with its dataclass defaults. -/
structure QuoteConsensus where
  text : String
  informant : String
  context : String
  appearances : Nat := 0
  total_runs : Nat := 0
  appearance_rate : ℚ := 0
  stability : StabilityRating := .unknown
deriving DecidableEq, Repr

/-- The `normalize` helper of _aggregate_quotes:
`" ".join(text.lower().split())` — lowercase, collapse whitespace runs. -/
def normalize (text : String) : String :=
  String.intercalate " " ((text.toLower.split Char.isWhitespace).filter (fun s => s ≠ ""))

/-- The `quote_counts[norm]["count"] += 1` update: increment the count stored
at key `norm`, keeping the entry's position (as a Python dict does). -/
def bumpCount (qc : List (String × QData)) (norm : String) : List (String × QData) :=
  match qc with
  | [] => []
  | (k, d) :: rest =>
    if k = norm then (k, { d with count := d.count + 1 }) :: rest
    else (k, d) :: bumpCount rest norm

/-- The body of the inner `for q in run_quotes` loop of _aggregate_quotes.
State: (quote_counts, seen_in_run). A quote is skipped when its normalized
text is empty or was already seen in this run; otherwise the run-local seen
set is extended, a fresh count-0 entry is appended when the key is new (Python
dict insertion appends at the end), and the count at the key is incremented. -/
def runStep (st : List (String × QData) × List String) (q : Quote) :
    List (String × QData) × List String :=
  let norm := normalize q.text
  if norm ≠ "" ∧ norm ∉ st.2 then
    let qc :=
      if norm ∈ st.1.map Prod.fst then st.1
      else st.1 ++ [(norm, ⟨q.text, q.informant, q.context, 0⟩)]
    (bumpCount qc norm, norm :: st.2)
  else st

/-- The two nested loops of _aggregate_quotes that fill `quote_counts`:
runs in order, each run starting with an empty `seen_in_run` set. -/
def buildCounts (all_quotes : List (List Quote)) : List (String × QData) :=
  all_quotes.foldl (fun qc run_quotes => (run_quotes.foldl runStep (qc, [])).1) []

/-- The rating branch of _aggregate_quotes: HIGH at or above the high
threshold, MEDIUM at or above the medium threshold, else LOW. -/
def quoteRating (rate : ℚ) (config : Config) : StabilityRating :=
  if rate ≥ config.quote_high_stability then .high
  else if rate ≥ config.quote_medium_stability then .medium
  else .low

/-- The `results` list of _aggregate_quotes before its final sort: one
QuoteConsensus per `quote_counts` entry, in dict (first-seen) order, with
`appearance_rate = count / n_runs`. -/
def preQuotes (all_quotes : List (List Quote)) (n_runs : Nat) (config : Config) :
    List QuoteConsensus :=
  (buildCounts all_quotes).map (fun p =>
    let rate : ℚ := (p.2.count : ℚ) / (n_runs : ℚ)
    { text := p.2.text, informant := p.2.informant, context := p.2.context,
      appearances := p.2.count, total_runs := n_runs,
      appearance_rate := rate, stability := quoteRating rate config })

/-- ConsensusEngine._aggregate_quotes: build the per-quote consensus entries
and sort them by descending appearance rate. Python's `list.sort(key=…,
reverse=True)` is a stable sort; it is modelled by the stable `mergeSort`
with the comparison `b.appearance_rate ≤ a.appearance_rate`. -/
def aggregate_quotes (all_quotes : List (List Quote)) (n_runs : Nat) (config : Config) :
    List QuoteConsensus :=
  (preQuotes all_quotes n_runs config).mergeSort
    (fun a b => decide (b.appearance_rate ≤ a.appearance_rate))

/-- ConsensusResult dataclass from engine.py. The wall-clock
`execution_time_seconds` and `timestamp` fields are real-time measurements
and are omitted from the model; no claim mentions them. -/
structure ConsensusResult where
  raw_responses : List String
  n_runs : Nat
  metrics : List (String × MetricConsensus)
  quotes : Option (List QuoteConsensus) := none
  overall_stability : StabilityRating := .unknown
  flagged_items : List String := []
  model : String := ""
  total_tokens : Nat := 0
  estimated_cost_usd : ℚ := 0
deriving Repr

/-- ConsensusEngine.run_n_times, after the network layer: `asyncio.gather(…,
return_exceptions=True)` yields one outcome per issued call, in task order —
either a (text, tokens) success or an exception, an exception in one call
never aborting the others. The subsequent loop logs each exception and
appends each success to `valid_results`. The outcome list is the model's
input; the function is the filtering loop. -/
def run_n_times (outcomes : List (Except String (String × Nat))) : List (String × Nat) :=
  outcomes.foldl (fun acc r =>
    match r with
    | .error _ => acc
    | .ok v => acc ++ [v]) []

/-- ConsensusEngine._estimate_cost: model-name lookup in the fixed price
table, `3.0` fallback, times tokens over one million. -/
def estimate_cost (model : String) (tokens : Nat) : ℚ :=
  let per_million : ℚ :=
    if model = "claude-sonnet-4-20250514" then 6.0
    else if model = "claude-3-5-haiku-20241022" then 1.0
    else if model = "gpt-4o-mini" then 0.3
    else if model = "gpt-4o" then 5.0
    else 3.0
  ((tokens : ℚ) / 1000000) * per_million

/-- The union of metric names over all extractions. The source collects them
into a Python set (iteration order arbitrary); the model fixes first-seen
order, which no claim depends on (the metrics mapping and the overall rating
are order-independent). -/
def metricNames (all_extractions : List (List (String × ℚ))) : List String :=
  all_extractions.foldl
    (fun acc ex => ex.foldl
      (fun acc p => if p.1 ∈ acc then acc else acc ++ [p.1]) acc) []

/-- ConsensusEngine.run_with_consensus, downstream of the fan-out: given the
successful (text, tokens) results returned by run_n_times, the optional
extractors and the config, compute the metric and quote aggregates, the
overall stability, the flagged items and the cost estimate, mirroring the
source statement by statement. The numeric formatting inside the two
f-strings building flagged items (CV percentage, appearance fraction) is
elided; flagged strings keep the metric name resp. the 50-character quote
preview. -/
def run_with_consensus
    (results : List (String × Nat))
    (extract_metrics_fn : Option (String → List (String × ℚ)))
    (extract_quotes_fn : Option (String → List Quote))
    (config : Config)
    (model : String) : ConsensusResult :=
  let raw_responses := results.map Prod.fst
  let total_tokens := (results.map Prod.snd).sum
  let metrics :=
    match extract_metrics_fn with
    | none => []
    | some f =>
      let all_extractions := raw_responses.map f
      (metricNames all_extractions).foldl (fun ms name =>
        let values := all_extractions.filterMap (fun ex => ex.lookup name)
        if values ≠ [] then
          ms ++ [(name, compute_stability { name := name, values := values } config)]
        else ms) []
  let quotes :=
    match extract_quotes_fn with
    | none => none
    | some f =>
      let all_quotes := raw_responses.map f
      some (aggregate_quotes all_quotes raw_responses.length config)
  let quoteList := match quotes with
    | some qs => if qs ≠ [] then qs else []
    | none => []
  let stabilities : List StabilityRating :=
    metrics.map (fun p => p.2.stability) ++ quoteList.map (fun q => q.stability)
  let flagged :=
    (metrics.filter (fun p => p.2.stability = .low)).map
      (fun p => "Metric " ++ p.1 ++ " has LOW stability") ++
    (quoteList.filter (fun q => q.stability = .low)).map
      (fun q => "Quote " ++ q.text.take 50 ++ " has LOW stability")
  let overall :=
    if StabilityRating.low ∈ stabilities then StabilityRating.low
    else if StabilityRating.medium ∈ stabilities then StabilityRating.medium
    else if stabilities ≠ [] then StabilityRating.high
    else StabilityRating.unknown
  { raw_responses := raw_responses,
    n_runs := raw_responses.length,
    metrics := metrics,
    quotes := quotes,
    overall_stability := overall,
    flagged_items := flagged,
    model := model,
    total_tokens := total_tokens,
    estimated_cost_usd := estimate_cost model total_tokens }

/-! ## Configuration merge (config.py) -/

/-- A Python JSON-ish config value: a scalar or a nested dict. Dicts are
insertion-ordered association lists, as in CPython. -/
inductive JVal where
  | num : ℚ → JVal
  | str : String → JVal
  | bool : Bool → JVal
  | dict : List (String × JVal) → JVal

/-- Python `d[k]` read access: the binding of the first (in a real dict, the
only) occurrence of the key. -/
def lookupKey (d : List (String × JVal)) (k : String) : Option JVal :=
  match d with
  | [] => none
  | (k', v) :: rest => if k' = k then some v else lookupKey rest k

/-- Python `d[k] = v`: overwrite the existing binding in place (a dict keeps
the key's insertion position) or append a new binding at the end. -/
def setKey (d : List (String × JVal)) (k : String) (v : JVal) : List (String × JVal) :=
  match d with
  | [] => [(k, v)]
  | (k', v') :: rest => if k' = k then (k, v) :: rest else (k', v') :: setKey rest k v

/-- merge_config from config.py: copy the base, then for each override entry
in order, recursively merge when both the current result and the override
hold dicts at the key (the two `isinstance(…, dict)` checks), otherwise
overwrite with the override value. -/
def merge_config (base : List (String × JVal)) : List (String × JVal) → List (String × JVal)
  | [] => base
  | (k, .dict d2) :: rest =>
    (match lookupKey base k with
     | some (.dict d1) => merge_config (setKey base k (.dict (merge_config d1 d2))) rest
     | _ => merge_config (setKey base k (.dict d2)) rest)
  | (k, v) :: rest => merge_config (setKey base k v) rest
termination_by ov => sizeOf ov
decreasing_by
  all_goals simp_wf
  all_goals omega

/-! ## Quote extraction (extractors.py)

The three `re` patterns of extract_quotes are embedded via a small
backtracking regex interpreter with Python semantics: leftmost match, greedy
quantifiers with backtracking, non-overlapping `finditer` scanning. Every
repetition in the three patterns repeats a single character class, which the
`rep` constructor captures directly. -/

/-- Regular-expression fragments used by the three quote patterns:
a single character from a class, a greedy `{min,}` repetition of a class
(`*` is min 0, `+` is min 1), a greedy optional group, a capturing group,
concatenation, and the empty pattern. -/
inductive RE where
  | eps
  | cls (p : Char → Bool)
  | rep (p : Char → Bool) (min : Nat)
  | opt (r : RE)
  | grp (idx : Nat) (r : RE)
  | seq (r1 r2 : RE)

/-- Concatenation of a pattern list. -/
def REcat (rs : List RE) : RE := rs.foldr RE.seq RE.eps

/-- Captured groups of one match: group index to captured text. -/
def Caps := List (Nat × String)

/-- Greedy repetition driver: with `L` the number of class characters still
available at this position, try consuming `L` characters, then on failure of
the rest of the pattern backtrack to `L - 1`, …, stopping below `min`. -/
def repTry (s : List Char) (caps : Caps)
    (k : List Char → Caps → Option (List Char × Caps)) (min : Nat) :
    Nat → Option (List Char × Caps)
  | 0 => if min = 0 then k s caps else none
  | (l + 1) =>
    if l + 1 < min then none
    else
      match k (s.drop (l + 1)) caps with
      | some res => some res
      | none => repTry s caps k min l

/-- Backtracking matcher in continuation-passing style: try to match `r` at
the head of `s`, and call `k` with the rest of the input and the captures for
every way of matching, in Python's preference order (greedy, longest first);
the first way for which `k` succeeds wins. -/
def matchRE (r : RE) (s : List Char) (caps : Caps)
    (k : List Char → Caps → Option (List Char × Caps)) : Option (List Char × Caps) :=
  match r with
  | .eps => k s caps
  | .cls p =>
    match s with
    | [] => none
    | c :: rest => if p c then k rest caps else none
  | .rep p min => repTry s caps k min (s.takeWhile p).length
  | .opt r1 =>
    match matchRE r1 s caps k with
    | some res => some res
    | none => k s caps
  | .grp i r1 =>
    matchRE r1 s caps
      (fun s1 c1 => k s1 ((i, String.mk (s.take (s.length - s1.length))) :: c1))
  | .seq r1 r2 => matchRE r1 s caps (fun s1 c1 => matchRE r2 s1 c1 k)

/-- Anchored match attempt at the current position, as the regex engine does
at each scanning position: returns the rest of the input and the captures. -/
def matchHere (r : RE) (s : List Char) : Option (List Char × Caps) :=
  matchRE r s [] (fun s1 c1 => some (s1, c1))

/-- Scanning loop of `re.finditer`: try the pattern at each position from the
left, on a match record its captures and resume after the matched span
(advancing one character on a hypothetical empty match; the three quote
patterns can never match the empty string), on a miss advance one character.
Fuel bounds the scan by the input length. -/
def finditerAux (r : RE) : List Char → Nat → List Caps
  | _, 0 => []
  | [], Nat.succ _ =>
    match matchHere r [] with
    | some (_, caps) => [caps]
    | none => []
  | s@(_ :: tail), Nat.succ fuel =>
    match matchHere r s with
    | some (rest, caps) =>
      if rest.length < s.length then caps :: finditerAux r rest fuel
      else caps :: finditerAux r tail fuel
    | none => finditerAux r tail fuel

/-- All matches of `re.finditer(pattern, s)`, as capture lists. -/
def finditer (r : RE) (s : List Char) : List Caps := finditerAux r s (s.length + 1)

/-- Python's `\s` class: space, tab, newline, carriage return, vertical tab,
form feed. -/
def pySpace (c : Char) : Bool :=
  c == ' ' || c == '\t' || c == '\n' || c == '\r' || c == '\x0b' || c == '\x0c'

/-- The literal character class `[-â€”]` appearing (mojibake and all) in the
blockquote and dash patterns of extractors.py: the file stores the em dash as
the three characters 'â', '€', '”', so the class is those plus '-'. -/
def dashChar (c : Char) : Bool :=
  c == '-' || c == 'â' || c == '€' || c == '”'

/-- Pattern 1 of extract_quotes, the markdown blockquote convention:
`>\s*"([^"]+)"\s*\n>\s*[-â€”]\s*([^,\n]+)(?:,\s*([^\n]+))?`. -/
def blockquote_pat : RE := REcat [
  .cls (fun c => c == '>'), .rep pySpace 0, .cls (fun c => c == '"'),
  .grp 1 (.rep (fun c => c != '"') 1), .cls (fun c => c == '"'),
  .rep pySpace 0, .cls (fun c => c == '\n'), .cls (fun c => c == '>'),
  .rep pySpace 0, .cls dashChar, .rep pySpace 0,
  .grp 2 (.rep (fun c => c != ',' && c != '\n') 1),
  .opt (REcat [.cls (fun c => c == ','), .rep pySpace 0,
    .grp 3 (.rep (fun c => c != '\n') 1)])]

/-- Pattern 2 of extract_quotes, the inline parenthetical convention:
`"([^"]{20,})"[^(]*\(([^)]+)\)`. -/
def inline_pat : RE := REcat [
  .cls (fun c => c == '"'), .grp 1 (.rep (fun c => c != '"') 20),
  .cls (fun c => c == '"'), .rep (fun c => c != '(') 0,
  .cls (fun c => c == '('), .grp 2 (.rep (fun c => c != ')') 1),
  .cls (fun c => c == ')')]

/-- Pattern 3 of extract_quotes, the same-line dash attribution convention:
`"([^"]{20,})"\s*[-â€”]+\s*([^\n]+)`. -/
def dash_pat : RE := REcat [
  .cls (fun c => c == '"'), .grp 1 (.rep (fun c => c != '"') 20),
  .cls (fun c => c == '"'), .rep pySpace 0, .rep dashChar 1,
  .rep pySpace 0, .grp 2 (.rep (fun c => c != '\n') 1)]

/-- Read one captured group of a match, empty when the group did not
participate, as `match.group(i) or ""` does. -/
def capStr (caps : Caps) (i : Nat) : String :=
  match caps.lookup i with
  | some s => s
  | none => ""

/-- Records produced by the pattern-1 and pattern-2 loops of extract_quotes,
in order: blockquote records (text, informant, optional context, each
stripped) followed by inline records (text stripped, attribution split on the
first comma into informant and context). Neither loop deduplicates. -/
def quotesPhase12 (response : String) : List Quote :=
  let s := response.toList
  ((finditer blockquote_pat s).map (fun caps =>
    ⟨(capStr caps 1).trim, (capStr caps 2).trim, (capStr caps 3).trim⟩)) ++
  ((finditer inline_pat s).map (fun caps =>
    let parts := (capStr caps 2).splitOn ","
    ⟨(capStr caps 1).trim, (parts.headD "").trim,
     if parts.length > 1 then (String.intercalate "," parts.tail).trim else ""⟩))

/-- The (text, informant) pairs matched by the dash pattern, in match
order, stripped as in the source. -/
def dashCandidates (response : String) : List (String × String) :=
  (finditer dash_pat response.toList).map
    (fun caps => ((capStr caps 1).trim, (capStr caps 2).trim))

/-- The pattern-3 loop of extract_quotes: append a dash-attributed quote
record unless its text is already present in the list. This is the only loop
of extract_quotes that checks for duplicates. -/
def dashFold (base : List Quote) (ms : List (String × String)) : List Quote :=
  ms.foldl (fun acc m =>
    if acc.any (fun q => q.text = m.1) then acc
    else acc ++ [⟨m.1, m.2, ""⟩]) base

/-- extract_quotes from extractors.py: the three pattern loops in order. -/
def extract_quotes (response : String) : List Quote :=
  dashFold (quotesPhase12 response) (dashCandidates response)

/-! ### Proof-side helper definitions for the quote aggregator

`lookupQ`/`countAt` read the count stored at a key of the quote_counts
association list; `appendIfNew`, `firstSeen` and `scanNorms` spell out the
first-seen order of normalized quote texts that a Python dict's insertion
order realizes; `EntryInv` is the invariant every quote_counts entry keeps
(its key is its display text normalized, and is nonempty). -/

def lookupQ : List (String × QData) → String → Option QData
  | [], _ => none
  | (k', d) :: rest, k => if k' = k then some d else lookupQ rest k

def countAt (qc : List (String × QData)) (k : String) : Nat :=
  match lookupQ qc k with
  | some d => d.count
  | none => 0

def appendIfNew (acc : List String) (n : String) : List String :=
  if n ∈ acc then acc else acc ++ [n]

def firstSeen (l : List String) : List String := l.foldl appendIfNew []

def scanNorms (all_quotes : List (List Quote)) : List String :=
  all_quotes.flatMap (fun run => (run.map (fun q => normalize q.text)).filter (fun n => n ≠ ""))

def EntryInv (p : String × QData) : Prop := p.1 = normalize p.2.text ∧ p.1 ≠ ""

/-! ## Supporting lemmas -/

theorem qmean_single (v : ℚ) : qmean [v] = v := by
  simp [qmean]

theorem qmedian_single (v : ℚ) : qmedian [v] = v := by
  simp [qmedian]

theorem qsqrt_nonneg (q : ℚ) : 0 ≤ qsqrt q := by
  unfold qsqrt
  apply div_nonneg
  · exact_mod_cast Int.sqrt_nonneg q.num
  · exact_mod_cast Nat.zero_le _

theorem qsqrt_pos (q : ℚ) (h : 0 < q) : 0 < qsqrt q := by
  unfold qsqrt
  apply div_pos
  · have h1 : 0 < q.num := Rat.num_pos.mpr h
    have h2 : 0 < q.num.toNat := by omega
    have h3 : 0 < Nat.sqrt q.num.toNat := Nat.sqrt_pos.mpr h2
    unfold Int.sqrt
    exact_mod_cast h3
  · have : 0 < q.den := q.pos
    exact_mod_cast Nat.sqrt_pos.mpr this

theorem t_table_pos (n : Nat) : 0 < t_table n := by
  by_cases h1 : n = 2
  · subst h1; norm_num [t_table]
  by_cases h2 : n = 3
  · subst h2; norm_num [t_table]
  by_cases h3 : n = 4
  · subst h3; norm_num [t_table]
  by_cases h4 : n = 5
  · subst h4; norm_num [t_table]
  by_cases h5 : n = 6
  · subst h5; norm_num [t_table]
  by_cases h6 : n = 7
  · subst h6; norm_num [t_table]
  by_cases h7 : n = 8
  · subst h7; norm_num [t_table]
  by_cases h8 : n = 9
  · subst h8; norm_num [t_table]
  by_cases h9 : n = 10
  · subst h9; norm_num [t_table]
  by_cases h10 : n = 15
  · subst h10; norm_num [t_table]
  by_cases h11 : n = 20
  · subst h11; norm_num [t_table]
  by_cases h12 : n = 25
  · subst h12; norm_num [t_table]
  unfold t_table
  rw [if_neg h1, if_neg h2, if_neg h3, if_neg h4, if_neg h5, if_neg h6,
      if_neg h7, if_neg h8, if_neg h9, if_neg h10, if_neg h11, if_neg h12]
  norm_num

theorem t_value_pos (n : Nat) : 0 < t_value n := by
  unfold t_value
  by_cases h : 30 ≤ n
  · rw [if_pos h]; norm_num
  · rw [if_neg h]; exact t_table_pos n

theorem fillStats_two_le (m : MetricConsensus) (h : 1 < m.values.length) :
    fillStats m =
      { m with
        mean := qmean m.values, median := qmedian m.values,
        std := qsqrt (qvariance m.values),
        ci_lower := qmean m.values -
          t_value m.values.length *
            (qsqrt (qvariance m.values) / qsqrt (m.values.length : ℚ)),
        ci_upper := qmean m.values +
          t_value m.values.length *
            (qsqrt (qvariance m.values) / qsqrt (m.values.length : ℚ)),
        cv := if qmean m.values ≠ 0 then
            .fin |qsqrt (qvariance m.values) / qmean m.values|
          else if 0 < qsqrt (qvariance m.values) then .inf else .fin 0 } := by
  simp only [fillStats, if_pos h]

theorem fillStats_lt_two (m : MetricConsensus) (h : ¬ 1 < m.values.length) :
    fillStats m =
      { m with
        mean := qmean m.values, median := qmedian m.values, std := 0,
        ci_lower := qmean m.values, ci_upper := qmean m.values, cv := .fin 0 } := by
  simp only [fillStats, if_neg h]

end Consensus

namespace Consensus

/-- C9: for every nonempty sample list, the 95% confidence interval computed
by compute_stability brackets the mean (ci_lower ≤ mean ≤ ci_upper), and the
interval is degenerate (both bounds equal to the mean) exactly when std = 0,
the single-sample case included, the half-width t·std/√n being nonnegative
for every sample count. -/
theorem compute_stability_ci_brackets (m : MetricConsensus) (cfg : Config)
    (h : m.values ≠ []) :
    (compute_stability m cfg).ci_lower ≤ (compute_stability m cfg).mean ∧
    (compute_stability m cfg).mean ≤ (compute_stability m cfg).ci_upper ∧
    (((compute_stability m cfg).ci_lower = (compute_stability m cfg).mean ∧
      (compute_stability m cfg).ci_upper = (compute_stability m cfg).mean) ↔
      (compute_stability m cfg).std = 0) := by
  have hcs : compute_stability m cfg = assignRating (fillStats m) cfg := by
    simp only [compute_stability, if_neg h]
  rw [hcs]
  by_cases h2 : 1 < m.values.length
  · rw [assignRating, fillStats_two_le m h2]
    dsimp only
    have hσ : 0 ≤ qsqrt (qvariance m.values) := qsqrt_nonneg _
    have hs : 0 < qsqrt ((m.values.length : ℚ)) := by
      apply qsqrt_pos
      exact_mod_cast Nat.lt_of_lt_of_le Nat.zero_lt_one h2.le
    have ht : 0 < t_value m.values.length := t_value_pos _
    have hmargin : 0 ≤ t_value m.values.length *
        (qsqrt (qvariance m.values) / qsqrt ((m.values.length : ℚ))) :=
      mul_nonneg ht.le (div_nonneg hσ hs.le)
    refine ⟨by linarith, by linarith, ?_⟩
    constructor
    · rintro ⟨e1, -⟩
      have hz : t_value m.values.length *
          (qsqrt (qvariance m.values) / qsqrt ((m.values.length : ℚ))) = 0 := by linarith
      rcases mul_eq_zero.mp hz with h' | h'
      · exact absurd h' ht.ne'
      · rcases div_eq_zero_iff.mp h' with h'' | h''
        · exact h''
        · exact absurd h'' hs.ne'
    · intro hz
      rw [hz]
      norm_num
  · rw [assignRating, fillStats_lt_two m h2]
    dsimp only
    exact ⟨le_refl _, le_refl _, by simp⟩

/-- Witness for compute_stability_ci_brackets at the sample list [1, 2]. -/
theorem compute_stability_ci_brackets_witness :
    ({ name := "w", values := [1, 2] } : MetricConsensus).values ≠ [] ∧
    ((compute_stability { name := "w", values := [1, 2] } DEFAULT_CONFIG).ci_lower ≤
        (compute_stability { name := "w", values := [1, 2] } DEFAULT_CONFIG).mean ∧
      (compute_stability { name := "w", values := [1, 2] } DEFAULT_CONFIG).mean ≤
        (compute_stability { name := "w", values := [1, 2] } DEFAULT_CONFIG).ci_upper ∧
      (((compute_stability { name := "w", values := [1, 2] } DEFAULT_CONFIG).ci_lower =
            (compute_stability { name := "w", values := [1, 2] } DEFAULT_CONFIG).mean ∧
          (compute_stability { name := "w", values := [1, 2] } DEFAULT_CONFIG).ci_upper =
            (compute_stability { name := "w", values := [1, 2] } DEFAULT_CONFIG).mean) ↔
        (compute_stability { name := "w", values := [1, 2] } DEFAULT_CONFIG).std = 0)) :=
  ⟨by simp, compute_stability_ci_brackets _ _ (by simp)⟩

/-- C5: for every sample list with at least two elements, compute_stability
sets CV to the absolute value of std over mean when the mean is nonzero, to
infinity when the mean is zero and std is positive, and to zero when both are
zero; with the default thresholds the samples [0,0,0] give CV 0 and rating
HIGH, while [-5,5,0] give infinite CV and rating LOW. -/
theorem compute_stability_cv_cases (m : MetricConsensus) (cfg : Config)
    (h : 2 ≤ m.values.length) :
    ((compute_stability m cfg).mean ≠ 0 →
      (compute_stability m cfg).cv =
        .fin |(compute_stability m cfg).std / (compute_stability m cfg).mean|) ∧
    ((compute_stability m cfg).mean = 0 → 0 < (compute_stability m cfg).std →
      (compute_stability m cfg).cv = .inf) ∧
    ((compute_stability m cfg).mean = 0 → (compute_stability m cfg).std = 0 →
      (compute_stability m cfg).cv = .fin 0) ∧
    (compute_stability { name := "cv0", values := [0, 0, 0] } DEFAULT_CONFIG).cv = .fin 0 ∧
    (compute_stability { name := "cv0", values := [0, 0, 0] } DEFAULT_CONFIG).stability
      = .high ∧
    (compute_stability { name := "cvinf", values := [-5, 5, 0] } DEFAULT_CONFIG).cv = .inf ∧
    (compute_stability { name := "cvinf", values := [-5, 5, 0] } DEFAULT_CONFIG).stability
      = .low := by
  have hne : m.values ≠ [] := by
    intro hh
    rw [hh] at h
    simp at h
  have h2 : 1 < m.values.length := h
  have hcs : compute_stability m cfg = assignRating (fillStats m) cfg := by
    simp only [compute_stability, if_neg hne]
  rw [hcs, assignRating, fillStats_two_le m h2]
  dsimp only
  refine ⟨?_, ?_, ?_, ?_, ?_, ?_, ?_⟩
  · intro hμ
    rw [if_pos hμ]
  · intro hμ hσ
    rw [if_neg (fun hne' => hne' hμ), if_pos hσ]
  · intro hμ hσ0
    rw [if_neg (fun hne' => hne' hμ), if_neg (by rw [hσ0]; exact lt_irrefl 0)]
  · with_unfolding_all rfl
  · with_unfolding_all rfl
  · with_unfolding_all rfl
  · with_unfolding_all rfl

/-- Witness for compute_stability_cv_cases at the sample list [1, 2]. -/
theorem compute_stability_cv_cases_witness :
    2 ≤ ({ name := "w", values := [1, 2] } : MetricConsensus).values.length ∧
    (((compute_stability { name := "w", values := [1, 2] } DEFAULT_CONFIG).mean ≠ 0 →
      (compute_stability { name := "w", values := [1, 2] } DEFAULT_CONFIG).cv =
        .fin |(compute_stability { name := "w", values := [1, 2] } DEFAULT_CONFIG).std /
          (compute_stability { name := "w", values := [1, 2] } DEFAULT_CONFIG).mean|) ∧
    ((compute_stability { name := "w", values := [1, 2] } DEFAULT_CONFIG).mean = 0 →
      0 < (compute_stability { name := "w", values := [1, 2] } DEFAULT_CONFIG).std →
      (compute_stability { name := "w", values := [1, 2] } DEFAULT_CONFIG).cv = .inf) ∧
    ((compute_stability { name := "w", values := [1, 2] } DEFAULT_CONFIG).mean = 0 →
      (compute_stability { name := "w", values := [1, 2] } DEFAULT_CONFIG).std = 0 →
      (compute_stability { name := "w", values := [1, 2] } DEFAULT_CONFIG).cv = .fin 0) ∧
    (compute_stability { name := "cv0", values := [0, 0, 0] } DEFAULT_CONFIG).cv = .fin 0 ∧
    (compute_stability { name := "cv0", values := [0, 0, 0] } DEFAULT_CONFIG).stability
      = .high ∧
    (compute_stability { name := "cvinf", values := [-5, 5, 0] } DEFAULT_CONFIG).cv = .inf ∧
    (compute_stability { name := "cvinf", values := [-5, 5, 0] } DEFAULT_CONFIG).stability
      = .low) :=
  ⟨by simp, compute_stability_cv_cases _ _ (by simp)⟩

/-- C4: for sample lists of length 0 or 1, compute_stability rates UNKNOWN
regardless of the values; length 0 leaves mean/median/std/CI at their prior
(dataclass-default 0) values, and a single sample v yields
mean = median = v, std = 0, CI = [v, v], CV = 0. -/
theorem compute_stability_small_sample (m : MetricConsensus) (cfg : Config) (v : ℚ) :
    compute_stability { m with values := [] } cfg
      = { m with values := [], stability := .unknown } ∧
    compute_stability { m with values := [v] } cfg
      = { m with
          values := [v], mean := v, median := v, std := 0,
          ci_lower := v, ci_upper := v, cv := .fin 0, stability := .unknown } := by
  constructor
  · simp [compute_stability]
  · simp [compute_stability, fillStats, assignRating, qmean_single, qmedian_single]

end Consensus

namespace Consensus

/-! ## Configuration merge lemmas (C8) -/

theorem lookupKey_setKey_self (d : List (String × JVal)) (k : String) (v : JVal) :
    lookupKey (setKey d k v) k = some v := by
  induction d with
  | nil => simp [setKey, lookupKey]
  | cons p rest ih =>
    obtain ⟨k', v'⟩ := p
    by_cases hp : k' = k
    · simp [setKey, hp, lookupKey]
    · simp [setKey, hp, lookupKey, ih]

theorem lookupKey_setKey_other (d : List (String × JVal)) (k k' : String) (v : JVal)
    (hkk : k' ≠ k) :
    lookupKey (setKey d k v) k' = lookupKey d k' := by
  induction d with
  | nil => simp [setKey, lookupKey, Ne.symm hkk]
  | cons p rest ih =>
    obtain ⟨k'', v''⟩ := p
    by_cases hp : k'' = k
    · subst hp
      simp [setKey, lookupKey, Ne.symm hkk]
    · simp [setKey, hp, lookupKey, ih]

theorem merge_config_cons_step (base : List (String × JVal)) (k : String) (v : JVal)
    (rest : List (String × JVal)) :
    ∃ w, merge_config base ((k, v) :: rest) = merge_config (setKey base k w) rest ∧
      (∀ d1 d2, lookupKey base k = some (.dict d1) → v = .dict d2 →
        w = .dict (merge_config d1 d2)) ∧
      ((∀ d2, v ≠ .dict d2) → w = v) ∧
      (lookupKey base k = none → w = v) := by
  cases v with
  | dict d2 =>
    cases hlb : lookupKey base k with
    | none =>
      refine ⟨.dict d2, by rw [merge_config, hlb], ?_, fun _ => rfl, fun _ => rfl⟩
      intro d1 d2' h1 h2
      simp at h1
    | some val =>
      cases val with
      | dict d1 =>
        refine ⟨.dict (merge_config d1 d2), by rw [merge_config, hlb], ?_, ?_, ?_⟩
        · intro d1' d2' h1 h2
          simp at h1 h2
          subst h1
          subst h2
          rfl
        · intro hnd
          exact absurd rfl (hnd d2)
        · intro hs
          simp at hs
      | num q =>
        refine ⟨.dict d2, by rw [merge_config, hlb], ?_, fun _ => rfl, fun _ => rfl⟩
        intro d1' d2' h1 h2
        simp at h1
      | str s =>
        refine ⟨.dict d2, by rw [merge_config, hlb], ?_, fun _ => rfl, fun _ => rfl⟩
        intro d1' d2' h1 h2
        simp at h1
      | bool b =>
        refine ⟨.dict d2, by rw [merge_config, hlb], ?_, fun _ => rfl, fun _ => rfl⟩
        intro d1' d2' h1 h2
        simp at h1
  | num q =>
    refine ⟨.num q, by rw [merge_config] <;> simp, ?_, fun _ => rfl, fun _ => rfl⟩
    intro d1 d2 h1 h2
    simp at h2
  | str s =>
    refine ⟨.str s, by rw [merge_config] <;> simp, ?_, fun _ => rfl, fun _ => rfl⟩
    intro d1 d2 h1 h2
    simp at h2
  | bool b =>
    refine ⟨.bool b, by rw [merge_config] <;> simp, ?_, fun _ => rfl, fun _ => rfl⟩
    intro d1 d2 h1 h2
    simp at h2

theorem lookupKey_merge_of_not_mem (ov : List (String × JVal)) (base : List (String × JVal))
    (k : String) (hk : k ∉ ov.map Prod.fst) :
    lookupKey (merge_config base ov) k = lookupKey base k := by
  induction ov generalizing base with
  | nil => rw [merge_config]
  | cons p rest ih =>
    obtain ⟨k', v⟩ := p
    simp only [List.map_cons, List.mem_cons] at hk
    push_neg at hk
    obtain ⟨w, hw, -, -, -⟩ := merge_config_cons_step base k' v rest
    rw [hw, ih _ hk.2, lookupKey_setKey_other _ _ _ _ hk.1]

/-- Deep-merge behaviour of merge_config at one key, by induction over the
override entries: untouched keys keep the base binding, keys absent from the
base take the override binding, and keys holding dicts on both sides hold the
recursive merge. -/
theorem merge_config_deep (base override : List (String × JVal)) (k : String)
    (hnd : (override.map Prod.fst).Nodup) :
    (k ∉ override.map Prod.fst →
      lookupKey (merge_config base override) k = lookupKey base k) ∧
    (∀ v, (k, v) ∈ override → lookupKey base k = none →
      lookupKey (merge_config base override) k = some v) ∧
    (∀ d1 d2, lookupKey base k = some (.dict d1) → (k, .dict d2) ∈ override →
      lookupKey (merge_config base override) k = some (.dict (merge_config d1 d2))) := by
  induction override generalizing base with
  | nil =>
    refine ⟨fun _ => by rw [merge_config], ?_, ?_⟩
    · intro v hv
      simp at hv
    · intro d1 d2 _ hv
      simp at hv
  | cons p rest ih =>
    obtain ⟨k', v'⟩ := p
    simp only [List.map_cons, List.nodup_cons] at hnd
    obtain ⟨hk'nmem, hndr⟩ := hnd
    obtain ⟨w, hw, hdict, hnondict, hnone⟩ := merge_config_cons_step base k' v' rest
    by_cases hkk : k = k'
    · subst hkk
      refine ⟨?_, ?_, ?_⟩
      · intro hmem
        simp at hmem
      · intro v hv hbase
        have hvv : v = v' := by
          rcases List.mem_cons.mp hv with h | h
          · exact (Prod.mk.injEq _ _ _ _ ▸ h).2.symm ▸ rfl
          · exact absurd (List.mem_map.mpr ⟨(k, v), h, rfl⟩) hk'nmem
        rw [hw, lookupKey_merge_of_not_mem _ _ _ hk'nmem, lookupKey_setKey_self,
          hnone hbase, hvv]
      · intro d1 d2 hb hmem
        have hvv : v' = .dict d2 := by
          rcases List.mem_cons.mp hmem with h | h
          · exact ((Prod.mk.injEq _ _ _ _ ▸ h).2).symm
          · exact absurd (List.mem_map.mpr ⟨(k, .dict d2), h, rfl⟩) hk'nmem
        rw [hw, lookupKey_merge_of_not_mem _ _ _ hk'nmem, lookupKey_setKey_self,
          hdict d1 d2 hb hvv]
    · have hbase' : lookupKey (setKey base k' w) k = lookupKey base k :=
        lookupKey_setKey_other _ _ _ _ hkk
      refine ⟨?_, ?_, ?_⟩
      · intro hmem
        simp only [List.map_cons, List.mem_cons] at hmem
        push_neg at hmem
        rw [hw, (ih _ hndr).1 hmem.2, hbase']
      · intro v hv hbase
        have hv' : (k, v) ∈ rest := by
          rcases List.mem_cons.mp hv with h | h
          · exact absurd (Prod.mk.injEq _ _ _ _ ▸ h).1 hkk
          · exact h
        rw [hw]
        exact (ih _ hndr).2.1 v hv' (hbase' ▸ hbase)
      · intro d1 d2 hb hmem
        have hv' : (k, JVal.dict d2) ∈ rest := by
          rcases List.mem_cons.mp hmem with h | h
          · exact absurd (Prod.mk.injEq _ _ _ _ ▸ h).1 hkk
          · exact h
        rw [hw]
        exact (ih _ hndr).2.2 d1 d2 (hbase' ▸ hb) hv'

/-- C8: merge_config deep-merges: a key absent from the override keeps its
base binding, a key present only in the override takes the override value,
and a key mapped to dicts on both sides maps to their recursive merge in the
result — concretely, a partial stage_n override preserves the sibling stage
entries of the base instead of discarding them. -/
theorem merge_config_spec (base override : List (String × JVal)) (k : String)
    (hnd : (override.map Prod.fst).Nodup) :
    ((k ∉ override.map Prod.fst →
       lookupKey (merge_config base override) k = lookupKey base k) ∧
     (∀ v, (k, v) ∈ override → lookupKey base k = none →
       lookupKey (merge_config base override) k = some v) ∧
     (∀ d1 d2, lookupKey base k = some (.dict d1) → (k, .dict d2) ∈ override →
       lookupKey (merge_config base override) k = some (.dict (merge_config d1 d2)))) ∧
    merge_config
      [("default_n", .num 10),
       ("stage_n", .dict [("hunt_patterns", .num 25), ("mine_qual", .num 15)])]
      [("stage_n", .dict [("hunt_patterns", .num 50)])] =
    [("default_n", .num 10),
     ("stage_n", .dict [("hunt_patterns", .num 50), ("mine_qual", .num 15)])] :=
  ⟨merge_config_deep base override k hnd, by simp [merge_config, setKey, lookupKey]⟩

/-- Witness for merge_config_spec: the stage_n example with a singleton
(nodup-keyed) override. -/
theorem merge_config_spec_witness :
    (([("stage_n", JVal.dict [("hunt_patterns", JVal.num 50)])].map Prod.fst).Nodup) ∧
    (((("stage_n" : String) ∉
        ([("stage_n", JVal.dict [("hunt_patterns", JVal.num 50)])].map Prod.fst) →
       lookupKey (merge_config
           [("default_n", .num 10),
            ("stage_n", .dict [("hunt_patterns", .num 25), ("mine_qual", .num 15)])]
           [("stage_n", JVal.dict [("hunt_patterns", JVal.num 50)])]) "stage_n" =
         lookupKey
           [("default_n", .num 10),
            ("stage_n", .dict [("hunt_patterns", .num 25), ("mine_qual", .num 15)])]
           "stage_n") ∧
     (∀ v, (("stage_n", v) ∈ [("stage_n", JVal.dict [("hunt_patterns", JVal.num 50)])]) →
       lookupKey
           [("default_n", .num 10),
            ("stage_n", .dict [("hunt_patterns", .num 25), ("mine_qual", .num 15)])]
           "stage_n" = none →
       lookupKey (merge_config
           [("default_n", .num 10),
            ("stage_n", .dict [("hunt_patterns", .num 25), ("mine_qual", .num 15)])]
           [("stage_n", JVal.dict [("hunt_patterns", JVal.num 50)])]) "stage_n" = some v) ∧
     (∀ d1 d2, lookupKey
           [("default_n", .num 10),
            ("stage_n", .dict [("hunt_patterns", .num 25), ("mine_qual", .num 15)])]
           "stage_n" = some (.dict d1) →
       (("stage_n", JVal.dict d2) ∈ [("stage_n", JVal.dict [("hunt_patterns", JVal.num 50)])]) →
       lookupKey (merge_config
           [("default_n", .num 10),
            ("stage_n", .dict [("hunt_patterns", .num 25), ("mine_qual", .num 15)])]
           [("stage_n", JVal.dict [("hunt_patterns", JVal.num 50)])]) "stage_n" =
         some (.dict (merge_config d1 d2)))) ∧
    merge_config
      [("default_n", .num 10),
       ("stage_n", .dict [("hunt_patterns", .num 25), ("mine_qual", .num 15)])]
      [("stage_n", .dict [("hunt_patterns", .num 50)])] =
    [("default_n", .num 10),
     ("stage_n", .dict [("hunt_patterns", .num 50), ("mine_qual", .num 15)])]) :=
  ⟨by simp, merge_config_spec _ _ _ (by simp)⟩

/-! ## Engine theorems (C1, C2, C10) -/

/-- C1 (amended): run_with_consensus computes the overall stability from the
list of all metric and quote ratings as: LOW if any rating is LOW; else
MEDIUM if any rating is MEDIUM; else HIGH as soon as at least one metric or
quote rating exists at all, whatever its value — UNKNOWN ratings included;
UNKNOWN only when there are no metric entries and no quote entries. (The
claim's `else HIGH if at least one HIGH exists; else UNKNOWN` branch is not
what the code does: the code tests only that the rating list is nonempty, so
an all-UNKNOWN rating list yields overall HIGH, not UNKNOWN — see the
counterexample.) -/
theorem run_with_consensus_overall (results : List (String × Nat))
    (mf : Option (String → List (String × ℚ))) (qf : Option (String → List Quote))
    (cfg : Config) (model : String) :
    (run_with_consensus results mf qf cfg model).overall_stability =
      (if StabilityRating.low ∈
          ((run_with_consensus results mf qf cfg model).metrics.map (fun p => p.2.stability)
            ++ ((run_with_consensus results mf qf cfg model).quotes.getD []).map
                (fun q => q.stability)) then
        StabilityRating.low
      else if StabilityRating.medium ∈
          ((run_with_consensus results mf qf cfg model).metrics.map (fun p => p.2.stability)
            ++ ((run_with_consensus results mf qf cfg model).quotes.getD []).map
                (fun q => q.stability)) then
        StabilityRating.medium
      else if ((run_with_consensus results mf qf cfg model).metrics.map (fun p => p.2.stability)
            ++ ((run_with_consensus results mf qf cfg model).quotes.getD []).map
                (fun q => q.stability)) ≠ [] then
        StabilityRating.high
      else StabilityRating.unknown) := by
  cases qf with
  | none =>
    dsimp only [run_with_consensus]
    rfl
  | some f =>
    dsimp only [run_with_consensus]
    have hql : (if aggregate_quotes ((results.map Prod.fst).map f)
          (results.map Prod.fst).length cfg ≠ [] then
        aggregate_quotes ((results.map Prod.fst).map f) (results.map Prod.fst).length cfg
      else []) =
        aggregate_quotes ((results.map Prod.fst).map f) (results.map Prod.fst).length cfg := by
      by_cases hq : aggregate_quotes ((results.map Prod.fst).map f)
          (results.map Prod.fst).length cfg = []
      · rw [hq]
        simp
      · rw [if_pos hq]
    rw [hql]
    rfl

/-- Counterexample to C1 as stated: two runs whose extractor yields a single
metric with two samples. The metric's only rating is UNKNOWN (fewer than 3
samples), no rating is LOW, MEDIUM or HIGH, yet the overall stability is
HIGH, not UNKNOWN. -/
theorem run_with_consensus_overall_counterexample :
    (run_with_consensus [("r1", 1), ("r2", 1)]
      (some (fun s => if s = "r1" then [("m", 1)] else [("m", 2)]))
      none DEFAULT_CONFIG "").overall_stability = .high ∧
    (run_with_consensus [("r1", 1), ("r2", 1)]
      (some (fun s => if s = "r1" then [("m", 1)] else [("m", 2)]))
      none DEFAULT_CONFIG "").metrics.map (fun p => p.2.stability) = [.unknown] ∧
    (run_with_consensus [("r1", 1), ("r2", 1)]
      (some (fun s => if s = "r1" then [("m", 1)] else [("m", 2)]))
      none DEFAULT_CONFIG "").quotes = none := by
  refine ⟨?_, ?_, ?_⟩ <;> with_unfolding_all rfl

theorem aggregate_quotes_nil (n_runs : Nat) (cfg : Config) :
    aggregate_quotes [] n_runs cfg = [] := by
  simp [aggregate_quotes, preQuotes, buildCounts]

theorem run_with_consensus_nil (mf : Option (String → List (String × ℚ)))
    (qf : Option (String → List Quote)) (cfg : Config) (model : String) :
    (run_with_consensus [] mf qf cfg model).metrics = [] ∧
    (run_with_consensus [] mf qf cfg model).quotes =
      (match qf with | none => none | some _ => some []) ∧
    (run_with_consensus [] mf qf cfg model).overall_stability = .unknown := by
  cases mf <;> cases qf <;>
    simp [run_with_consensus, aggregate_quotes, preQuotes, buildCounts, metricNames]

theorem run_n_times_length_aux (outcomes : List (Except String (String × Nat))) :
    (outcomes.filterMap Except.toOption).length +
      outcomes.countP (fun r => decide (r.toOption = none)) = outcomes.length := by
  induction outcomes with
  | nil => simp
  | cons r rest ih =>
    cases hr : r.toOption with
    | none =>
      simp only [List.filterMap_cons, hr, List.countP_cons, List.length_cons,
        decide_eq_true_eq, if_pos]
      omega
    | some v =>
      have hz : (decide ((some v : Option (String × Nat)) = none)) = false := by simp
      simp only [List.filterMap_cons, hr, List.countP_cons, List.length_cons, hz,
        Bool.false_eq_true, if_false]
      omega

theorem run_n_times_go (outcomes : List (Except String (String × Nat)))
    (acc : List (String × Nat)) :
    outcomes.foldl (fun acc r =>
      match r with
      | .error _ => acc
      | .ok v => acc ++ [v]) acc = acc ++ outcomes.filterMap Except.toOption := by
  induction outcomes generalizing acc with
  | nil => simp
  | cons r rest ih =>
    cases r with
    | error e => simp [ih, Except.toOption]
    | ok v => simp [ih, Except.toOption]

/-- C2: run_n_times keeps exactly the successful call outcomes, in order: it
equals the filter of the outcome list to its successes, its length is the
call count minus the number of raising calls (a failure is dropped without
affecting the other outcomes), and when every call fails it returns the empty
list, upon which run_with_consensus yields empty metrics, an absent-or-empty
quote list and UNKNOWN overall stability. -/
theorem run_n_times_spec (outcomes : List (Except String (String × Nat))) :
    run_n_times outcomes = outcomes.filterMap Except.toOption ∧
    (run_n_times outcomes).length =
      outcomes.length - outcomes.countP (fun r => decide (r.toOption = none)) ∧
    ((∀ r ∈ outcomes, r.toOption = none) →
      ∀ (mf : Option (String → List (String × ℚ))) (qf : Option (String → List Quote))
        (cfg : Config) (model : String),
        (run_with_consensus (run_n_times outcomes) mf qf cfg model).metrics = [] ∧
        ((run_with_consensus (run_n_times outcomes) mf qf cfg model).quotes = none ∨
         (run_with_consensus (run_n_times outcomes) mf qf cfg model).quotes = some []) ∧
        (run_with_consensus (run_n_times outcomes) mf qf cfg model).overall_stability
          = .unknown) := by
  have h1 : run_n_times outcomes = outcomes.filterMap Except.toOption := by
    rw [run_n_times, run_n_times_go]
    simp
  refine ⟨h1, ?_, ?_⟩
  · rw [h1]
    have := run_n_times_length_aux outcomes
    omega
  · intro hall mf qf cfg model
    have hempty : run_n_times outcomes = [] := by
      rw [h1, List.filterMap_eq_nil_iff]
      exact hall
    rw [hempty]
    obtain ⟨hm, hq, ho⟩ := run_with_consensus_nil mf qf cfg model
    refine ⟨hm, ?_, ho⟩
    cases qf with
    | none => exact Or.inl hq
    | some f => exact Or.inr hq

/-- Witness for run_n_times_spec at an all-failures outcome list with both
extractors supplied. -/
theorem run_n_times_spec_witness :
    (∀ r ∈ ([.error "a", .error "b"] : List (Except String (String × Nat))),
      r.toOption = none) ∧
    ((run_with_consensus (run_n_times [.error "a", .error "b"])
        (some (fun _ => [("m", 1)])) (some (fun _ => [⟨"some quote", "i", "c"⟩]))
        DEFAULT_CONFIG "mdl").metrics = [] ∧
     ((run_with_consensus (run_n_times [.error "a", .error "b"])
        (some (fun _ => [("m", 1)])) (some (fun _ => [⟨"some quote", "i", "c"⟩]))
        DEFAULT_CONFIG "mdl").quotes = none ∨
      (run_with_consensus (run_n_times [.error "a", .error "b"])
        (some (fun _ => [("m", 1)])) (some (fun _ => [⟨"some quote", "i", "c"⟩]))
        DEFAULT_CONFIG "mdl").quotes = some []) ∧
     (run_with_consensus (run_n_times [.error "a", .error "b"])
        (some (fun _ => [("m", 1)])) (some (fun _ => [⟨"some quote", "i", "c"⟩]))
        DEFAULT_CONFIG "mdl").overall_stability = .unknown) :=
  ⟨by simp [Except.toOption],
   (run_n_times_spec [.error "a", .error "b"]).2.2 (by simp [Except.toOption]) _ _ _ _⟩

/-- C10: the appearance-rate division of the quote aggregator is never
reached with a zero denominator when run_with_consensus supplies a quote
extractor: with zero successful runs the aggregator receives an empty run
list and returns an empty list without forming any group, and any nonempty
aggregator output requires at least one run, so the denominator
n_runs = len(raw_responses) is at least 1 whenever a rate is computed. -/
theorem aggregate_quotes_zero_runs_safe (results : List (String × Nat))
    (mf : Option (String → List (String × ℚ))) (qf : String → List Quote)
    (cfg : Config) (model : String) :
    (results = [] →
      (run_with_consensus results mf (some qf) cfg model).quotes = some []) ∧
    (∀ qs, (run_with_consensus results mf (some qf) cfg model).quotes = some qs →
      qs ≠ [] → 1 ≤ results.length) ∧
    aggregate_quotes [] 0 cfg = [] ∧
    (∀ allq n_runs, aggregate_quotes allq n_runs cfg ≠ [] → allq ≠ []) := by
  refine ⟨?_, ?_, aggregate_quotes_nil 0 cfg, ?_⟩
  · intro h
    subst h
    exact (run_with_consensus_nil mf (some qf) cfg model).2.1
  · intro qs hq hne
    by_cases hres : results = []
    · subst hres
      rw [(run_with_consensus_nil mf (some qf) cfg model).2.1] at hq
      exact absurd (Option.some.inj hq).symm hne
    · have : 0 < results.length := List.length_pos.mpr hres
      omega
  · intro allq n_runs hagg heq
    subst heq
    exact hagg (aggregate_quotes_nil n_runs cfg)

/-- Witness for aggregate_quotes_zero_runs_safe at the empty result list. -/
theorem aggregate_quotes_zero_runs_safe_witness :
    ([] : List (String × Nat)) = [] ∧
    (run_with_consensus [] none (some (fun _ => [⟨"q text", "i", "c"⟩]))
      DEFAULT_CONFIG "m").quotes = some [] :=
  ⟨rfl, (aggregate_quotes_zero_runs_safe [] none _ DEFAULT_CONFIG "m").1 rfl⟩

/-! ## Quote extraction theorems (C3) -/

theorem dashFold_adds (ms : List (String × String)) (base : List Quote) :
    ∃ added, dashFold base ms = base ++ added ∧
      added.Pairwise (fun a b => a.text ≠ b.text) ∧
      (∀ q ∈ added, ∀ p ∈ base, q.text ≠ p.text) := by
  induction ms generalizing base with
  | nil => exact ⟨[], by simp [dashFold], List.Pairwise.nil, by simp⟩
  | cons m rest ih =>
    rw [dashFold, List.foldl_cons]
    by_cases hmem : base.any (fun q => decide (q.text = m.1))
    · rw [if_pos hmem]
      exact ih base
    · rw [if_neg hmem]
      obtain ⟨added', h1, h2, h3⟩ := ih (base ++ [⟨m.1, m.2, ""⟩])
      have hnb : ∀ p ∈ base, ¬ (p.text = m.1) := by
        intro p hp hc
        exact hmem (List.any_eq_true.mpr ⟨p, hp, by simp [hc]⟩)
      refine ⟨⟨m.1, m.2, ""⟩ :: added', ?_, ?_, ?_⟩
      · rw [dashFold] at h1
        rw [h1, List.append_assoc]
        rfl
      · refine List.Pairwise.cons ?_ h2
        intro q hq
        exact Ne.symm (h3 q hq ⟨m.1, m.2, ""⟩ (List.mem_append_right _ (List.mem_singleton.mpr rfl)))
      · intro q hq p hp
        rcases List.mem_cons.mp hq with h | h
        · subst h
          intro hc
          exact hnb p hp hc.symm
        · exact h3 q h p (List.mem_append_left _ hp)

/-- C3 (amended): extract_quotes can return two records with the same
literal quote text — the block-quote and inline loops never deduplicate, so
e.g. the same inline-attributed quote appearing twice yields two records with
identical text (see the counterexample). The only deduplication in
extract_quotes is in the third, dash-attribution loop: every record that loop
adds has a text distinct from every other record of the result, the earlier
patterns' records included. -/
theorem extract_quotes_dash_dedup (response : String) :
    ∃ added, extract_quotes response = quotesPhase12 response ++ added ∧
      added.Pairwise (fun a b => a.text ≠ b.text) ∧
      (∀ q ∈ added, ∀ p ∈ quotesPhase12 response, q.text ≠ p.text) :=
  dashFold_adds (dashCandidates response) (quotesPhase12 response)

/-- Counterexample to C3 as stated: a response in which the same
21-character quote text carries two different inline parenthetical
attributions. extract_quotes returns two records with the same literal text,
so its output is not duplicate-free. -/
theorem extract_quotes_dup_counterexample :
    (extract_quotes "\"abcdefghijklmnopqrstu\" (A) \"abcdefghijklmnopqrstu\" (B)").map
        Quote.text =
      ["abcdefghijklmnopqrstu", "abcdefghijklmnopqrstu"] ∧
    ¬ (extract_quotes
        "\"abcdefghijklmnopqrstu\" (A) \"abcdefghijklmnopqrstu\" (B)").Pairwise
        (fun a b => a.text ≠ b.text) := by
  have hm : (extract_quotes
      "\"abcdefghijklmnopqrstu\" (A) \"abcdefghijklmnopqrstu\" (B)").map Quote.text =
      ["abcdefghijklmnopqrstu", "abcdefghijklmnopqrstu"] := by
    with_unfolding_all rfl
  refine ⟨hm, ?_⟩
  intro hp
  have hp2 := List.pairwise_map.mpr hp
  rw [hm] at hp2
  simp at hp2

end Consensus
namespace Consensus

theorem lookupQ_bumpCount_self (qc : List (String × QData)) (k : String) :
    lookupQ (bumpCount qc k) k =
      (lookupQ qc k).map (fun d => { d with count := d.count + 1 }) := by
  induction qc with
  | nil => simp [bumpCount, lookupQ]
  | cons p rest ih =>
    obtain ⟨k', d⟩ := p
    by_cases hp : k' = k
    · simp [bumpCount, hp, lookupQ]
    · simp [bumpCount, hp, lookupQ, ih]

theorem lookupQ_bumpCount_other (qc : List (String × QData)) (k k' : String) (hkk : k' ≠ k) :
    lookupQ (bumpCount qc k) k' = lookupQ qc k' := by
  induction qc with
  | nil => simp [bumpCount, lookupQ]
  | cons p rest ih =>
    obtain ⟨k'', d⟩ := p
    rw [bumpCount]
    by_cases hp : k'' = k
    · rw [if_pos hp]
      have hne : k'' ≠ k' := by rw [hp]; exact Ne.symm hkk
      rw [lookupQ, lookupQ, if_neg hne, if_neg hne]
    · rw [if_neg hp]
      by_cases hp2 : k'' = k'
      · rw [lookupQ, lookupQ, if_pos hp2, if_pos hp2]
      · rw [lookupQ, lookupQ, if_neg hp2, if_neg hp2, ih]

theorem keys_bumpCount (qc : List (String × QData)) (k : String) :
    (bumpCount qc k).map Prod.fst = qc.map Prod.fst := by
  induction qc with
  | nil => simp [bumpCount]
  | cons p rest ih =>
    obtain ⟨k', d⟩ := p
    by_cases hp : k' = k
    · simp [bumpCount, hp]
    · simp [bumpCount, hp, ih]

theorem mem_bumpCount (qc : List (String × QData)) (k : String) (p : String × QData)
    (hp : p ∈ bumpCount qc k) :
    ∃ d, (p.1, d) ∈ qc ∧ p.2.text = d.text := by
  induction qc with
  | nil => simp [bumpCount] at hp
  | cons q rest ih =>
    obtain ⟨k', d⟩ := q
    by_cases hk : k' = k
    · rw [bumpCount, if_pos hk] at hp
      rcases List.mem_cons.mp hp with h | h
      · subst h
        exact ⟨d, List.mem_cons_self _ _, rfl⟩
      · exact ⟨p.2, List.mem_cons_of_mem _ (by rw [← Prod.mk.eta (p := p)] at h ⊢; exact h), rfl⟩
    · rw [bumpCount, if_neg hk] at hp
      rcases List.mem_cons.mp hp with h | h
      · subst h
        exact ⟨d, List.mem_cons_self _ _, rfl⟩
      · obtain ⟨d', hd', ht⟩ := ih h
        exact ⟨d', List.mem_cons_of_mem _ hd', ht⟩

theorem lookupQ_append_single (qc : List (String × QData)) (k k' : String) (d : QData) :
    lookupQ (qc ++ [(k, d)]) k' =
      (match lookupQ qc k' with
       | some d' => some d'
       | none => if k = k' then some d else none) := by
  induction qc with
  | nil => simp [lookupQ]
  | cons p rest ih =>
    obtain ⟨k'', d''⟩ := p
    by_cases hp : k'' = k'
    · simp [lookupQ, hp]
    · simp [lookupQ, hp, ih]

theorem lookupQ_eq_none_iff (qc : List (String × QData)) (k : String) :
    lookupQ qc k = none ↔ k ∉ qc.map Prod.fst := by
  induction qc with
  | nil => simp [lookupQ]
  | cons p rest ih =>
    obtain ⟨k', d⟩ := p
    by_cases hp : k' = k
    · simp [lookupQ, hp]
    · simp [lookupQ, hp, ih, Ne.symm hp]

theorem lookupQ_of_mem_nodup (qc : List (String × QData)) (k : String) (d : QData)
    (hnd : (qc.map Prod.fst).Nodup) (hmem : (k, d) ∈ qc) :
    lookupQ qc k = some d := by
  induction qc with
  | nil => simp at hmem
  | cons p rest ih =>
    obtain ⟨k', d'⟩ := p
    simp only [List.map_cons, List.nodup_cons] at hnd
    rcases List.mem_cons.mp hmem with h | h
    · rw [Prod.mk.injEq] at h
      obtain ⟨h1, h2⟩ := h
      subst h1
      subst h2
      rw [lookupQ, if_pos rfl]
    · have hk : k' ≠ k := by
        intro he
        exact hnd.1 (he ▸ List.mem_map.mpr ⟨(k, d), h, rfl⟩)
      rw [lookupQ, if_neg hk]
      exact ih hnd.2 h

end Consensus
namespace Consensus

theorem countAt_bump_of_isSome (l : List (String × QData)) (k : String)
    (h : (lookupQ l k).isSome) :
    countAt (bumpCount l k) k = countAt l k + 1 := by
  unfold countAt
  rw [lookupQ_bumpCount_self]
  cases hl : lookupQ l k with
  | none => rw [hl] at h; simp at h
  | some d => simp

theorem runStep_snd (st : List (String × QData) × List String) (q : Quote) :
    (runStep st q).2 =
      (if normalize q.text ≠ "" ∧ normalize q.text ∉ st.2
       then normalize q.text :: st.2 else st.2) := by
  rw [runStep]
  by_cases h : normalize q.text ≠ "" ∧ normalize q.text ∉ st.2
  · rw [if_pos h, if_pos h]
  · rw [if_neg h, if_neg h]

theorem runStep_count (st : List (String × QData) × List String) (q : Quote) (n : String) :
    countAt (runStep st q).1 n =
      countAt st.1 n +
        (if n ≠ "" ∧ n ∉ st.2 ∧ normalize q.text = n then 1 else 0) := by
  rw [runStep]
  by_cases h : normalize q.text ≠ "" ∧ normalize q.text ∉ st.2
  · rw [if_pos h]
    dsimp only
    by_cases hn : normalize q.text = n
    · subst hn
      set norm := normalize q.text
      by_cases hk : norm ∈ st.1.map Prod.fst
      · rw [if_pos hk, if_pos ⟨h.1, h.2, rfl⟩]
        apply countAt_bump_of_isSome
        cases hl : lookupQ st.1 norm with
        | none => exact absurd ((lookupQ_eq_none_iff _ _).mp hl) (by simpa using hk)
        | some d => simp
      · rw [if_neg hk, if_pos ⟨h.1, h.2, rfl⟩]
        have h0 : lookupQ st.1 norm = none := (lookupQ_eq_none_iff _ _).mpr hk
        have h1 : lookupQ (st.1 ++ [(norm, ⟨q.text, q.informant, q.context, 0⟩)]) norm
            = some ⟨q.text, q.informant, q.context, 0⟩ := by
          rw [lookupQ_append_single, h0]
          simp
        rw [countAt_bump_of_isSome _ _ (by rw [h1]; simp)]
        unfold countAt
        rw [h0, h1]
    · have hif : ¬ (n ≠ "" ∧ n ∉ st.2 ∧ normalize q.text = n) := by
        intro hc
        exact hn hc.2.2
      rw [if_neg hif, Nat.add_zero]
      set norm := normalize q.text
      have hbo : ∀ l, countAt (bumpCount l norm) n = countAt l n := by
        intro l
        unfold countAt
        rw [lookupQ_bumpCount_other _ _ _ (Ne.symm hn)]
      by_cases hk : norm ∈ st.1.map Prod.fst
      · rw [if_pos hk, hbo]
      · rw [if_neg hk, hbo]
        unfold countAt
        rw [lookupQ_append_single]
        cases hl : lookupQ st.1 n with
        | none => rw [if_neg hn]
        | some d => rfl
  · rw [if_neg h]
    have hif : ¬ (n ≠ "" ∧ n ∉ st.2 ∧ normalize q.text = n) := by
      intro hc
      exact h (hc.2.2 ▸ ⟨hc.1, hc.2.1⟩)
    rw [if_neg hif, Nat.add_zero]

end Consensus
namespace Consensus

theorem runStep_keys (st : List (String × QData) × List String) (q : Quote)
    (hsub : ∀ s ∈ st.2, s ∈ st.1.map Prod.fst) :
    ((runStep st q).1.map Prod.fst =
      (if normalize q.text ≠ "" then appendIfNew (st.1.map Prod.fst) (normalize q.text)
       else st.1.map Prod.fst)) ∧
    (∀ s ∈ (runStep st q).2, s ∈ (runStep st q).1.map Prod.fst) := by
  rw [runStep]
  by_cases h : normalize q.text ≠ "" ∧ normalize q.text ∉ st.2
  · rw [if_pos h]
    dsimp only
    set norm := normalize q.text
    by_cases hk : norm ∈ st.1.map Prod.fst
    · rw [if_pos hk]
      constructor
      · rw [keys_bumpCount, if_pos h.1, appendIfNew, if_pos hk]
      · intro s hs
        rw [keys_bumpCount]
        rcases List.mem_cons.mp hs with h' | h'
        · exact h' ▸ hk
        · exact hsub s h'
    · rw [if_neg hk]
      constructor
      · rw [keys_bumpCount, if_pos h.1, appendIfNew, if_neg hk]
        simp
      · intro s hs
        rw [keys_bumpCount]
        simp only [List.map_append, List.map_cons, List.map_nil]
        rcases List.mem_cons.mp hs with h' | h'
        · subst h'
          exact List.mem_append_right _ (by simp)
        · exact List.mem_append_left _ (hsub s h')
  · rw [if_neg h]
    push_neg at h
    constructor
    · by_cases hne : normalize q.text ≠ ""
      · rw [if_pos hne, appendIfNew, if_pos (hsub _ (h hne))]
      · rw [if_neg hne]
    · exact hsub

theorem runStep_inv (st : List (String × QData) × List String) (q : Quote)
    (hinv : ∀ p ∈ st.1, EntryInv p) :
    ∀ p ∈ (runStep st q).1, EntryInv p := by
  rw [runStep]
  by_cases h : normalize q.text ≠ "" ∧ normalize q.text ∉ st.2
  · rw [if_pos h]
    dsimp only
    intro p hp
    obtain ⟨d, hd, ht⟩ := mem_bumpCount _ _ _ hp
    by_cases hk : normalize q.text ∈ st.1.map Prod.fst
    · rw [if_pos hk] at hd
      have := hinv (p.1, d) hd
      unfold EntryInv at this ⊢
      rw [ht]
      exact this
    · rw [if_neg hk] at hd
      rcases List.mem_append.mp hd with h' | h'
      · have := hinv (p.1, d) h'
        unfold EntryInv at this ⊢
        rw [ht]
        exact this
      · have he : p.1 = normalize q.text ∧ d = ⟨q.text, q.informant, q.context, 0⟩ := by
          simpa [Prod.ext_iff] using h'
        unfold EntryInv
        rw [ht, he.1, he.2]
        exact ⟨rfl, h.1⟩
  · rw [if_neg h]
    exact hinv

theorem runStep_nodup (st : List (String × QData) × List String) (q : Quote)
    (hnd : (st.1.map Prod.fst).Nodup) :
    ((runStep st q).1.map Prod.fst).Nodup := by
  rw [runStep]
  by_cases h : normalize q.text ≠ "" ∧ normalize q.text ∉ st.2
  · rw [if_pos h]
    dsimp only
    rw [keys_bumpCount]
    by_cases hk : normalize q.text ∈ st.1.map Prod.fst
    · rw [if_pos hk]
      exact hnd
    · rw [if_neg hk]
      simp only [List.map_append, List.map_cons, List.map_nil]
      exact List.Nodup.append hnd (List.nodup_singleton _)
        (by intro a ha hb; rw [List.mem_singleton] at hb; subst hb; exact hk ha)
  · rw [if_neg h]
    exact hnd

end Consensus
namespace Consensus

theorem innerFold_count (run : List Quote) (st : List (String × QData) × List String)
    (n : String) :
    countAt (run.foldl runStep st).1 n =
      countAt st.1 n +
        (if n ≠ "" ∧ n ∉ st.2 ∧ (∃ q ∈ run, normalize q.text = n) then 1 else 0) := by
  induction run generalizing st with
  | nil => simp
  | cons q rest ih =>
    rw [List.foldl_cons, ih (runStep st q), runStep_count st q n]
    have hsnd := runStep_snd st q
    by_cases hA : n ≠ ""
    case neg => simp [hA]
    by_cases hC : normalize q.text = n
    · by_cases hB : n ∉ st.2
      · have hcond : normalize q.text ≠ "" ∧ normalize q.text ∉ st.2 := by
          rw [hC]
          exact ⟨hA, hB⟩
        have h2 : n ∈ (runStep st q).2 := by
          rw [hsnd, if_pos hcond, hC]
          exact List.mem_cons_self _ _
        rw [if_pos ⟨hA, hB, hC⟩, if_neg (fun hx => hx.2.1 h2),
          if_pos ⟨hA, hB, q, List.mem_cons_self _ _, hC⟩]
      · push_neg at hB
        have h2 : n ∈ (runStep st q).2 := by
          rw [hsnd]
          by_cases hc : normalize q.text ≠ "" ∧ normalize q.text ∉ st.2
          · rw [if_pos hc]
            exact List.mem_cons_of_mem _ hB
          · rw [if_neg hc]
            exact hB
        rw [if_neg (fun hx => hx.2.1 hB), if_neg (fun hx => hx.2.1 h2),
          if_neg (fun hx => hx.2.1 hB)]
    · have hmm : n ∉ (runStep st q).2 ↔ n ∉ st.2 := by
        rw [hsnd]
        by_cases hc : normalize q.text ≠ "" ∧ normalize q.text ∉ st.2
        · rw [if_pos hc]
          constructor
          · intro hx hn2
            exact hx (List.mem_cons_of_mem _ hn2)
          · intro hx hn2
            rcases List.mem_cons.mp hn2 with h' | h'
            · exact hC h'.symm
            · exact hx h'
        · rw [if_neg hc]
      rw [if_neg (fun hx => hC hx.2.2), Nat.add_zero]
      by_cases hB : n ∉ st.2
      · by_cases hD : ∃ q' ∈ rest, normalize q'.text = n
        · rw [if_pos ⟨hA, hmm.mpr hB, hD⟩,
            if_pos ⟨hA, hB, by obtain ⟨q', hq', he⟩ := hD; exact ⟨q', List.mem_cons_of_mem _ hq', he⟩⟩]
        · rw [if_neg (fun hx => hD hx.2.2), if_neg ?_]
          intro hx
          obtain ⟨q', hq', he⟩ := hx.2.2
          rcases List.mem_cons.mp hq' with h' | h'
          · exact hC (h' ▸ he)
          · exact hD ⟨q', h', he⟩
      · push_neg at hB
        rw [if_neg (fun hx => (hmm.mp hx.2.1) hB), if_neg (fun hx => hx.2.1 hB)]

end Consensus
namespace Consensus

theorem innerFold_keys (run : List Quote) (st : List (String × QData) × List String)
    (hsub : ∀ s ∈ st.2, s ∈ st.1.map Prod.fst) :
    ((run.foldl runStep st).1.map Prod.fst =
      ((run.map (fun q => normalize q.text)).filter (fun m => m ≠ "")).foldl
        appendIfNew (st.1.map Prod.fst)) ∧
    (∀ s ∈ (run.foldl runStep st).2, s ∈ (run.foldl runStep st).1.map Prod.fst) := by
  induction run generalizing st with
  | nil => exact ⟨by simp, hsub⟩
  | cons q rest ih =>
    rw [List.foldl_cons]
    obtain ⟨h1, h2⟩ := runStep_keys st q hsub
    obtain ⟨ih1, ih2⟩ := ih (runStep st q) h2
    refine ⟨?_, ih2⟩
    rw [ih1, List.map_cons, List.filter_cons]
    by_cases hne : normalize q.text ≠ ""
    · rw [if_pos (by simpa using hne), List.foldl_cons]
      rw [if_pos hne] at h1
      rw [h1]
    · rw [if_neg (by simpa using hne)]
      rw [if_neg hne] at h1
      rw [h1]

theorem innerFold_inv (run : List Quote) (st : List (String × QData) × List String)
    (hinv : ∀ p ∈ st.1, EntryInv p) :
    ∀ p ∈ (run.foldl runStep st).1, EntryInv p := by
  induction run generalizing st with
  | nil => exact hinv
  | cons q rest ih =>
    rw [List.foldl_cons]
    exact ih (runStep st q) (runStep_inv st q hinv)

theorem innerFold_nodup (run : List Quote) (st : List (String × QData) × List String)
    (hnd : (st.1.map Prod.fst).Nodup) :
    (((run.foldl runStep st).1).map Prod.fst).Nodup := by
  induction run generalizing st with
  | nil => exact hnd
  | cons q rest ih =>
    rw [List.foldl_cons]
    exact ih (runStep st q) (runStep_nodup st q hnd)

theorem buildCounts_go_count (all_quotes : List (List Quote))
    (qc0 : List (String × QData)) (n : String) (hn : n ≠ "") :
    countAt (all_quotes.foldl (fun qc run => (run.foldl runStep (qc, [])).1) qc0) n =
      countAt qc0 n +
        all_quotes.countP (fun run => decide (∃ q ∈ run, normalize q.text = n)) := by
  induction all_quotes generalizing qc0 with
  | nil => simp
  | cons run rest ih =>
    rw [List.foldl_cons, ih, List.countP_cons]
    have hstep := innerFold_count run (qc0, []) n
    dsimp only at hstep
    rw [hstep]
    by_cases hex : ∃ q ∈ run, normalize q.text = n
    · rw [if_pos ⟨hn, by simp, hex⟩]
      simp only [hex]
      have h1 : (if decide True = true then 1 else 0) = 1 := by simp
      rw [h1]
      omega
    · rw [if_neg (fun hx => hex hx.2.2)]
      simp only [decide_eq_true_eq]
      rw [if_neg hex]
      omega

theorem buildCounts_go_inv (all_quotes : List (List Quote))
    (qc0 : List (String × QData)) (hinv : ∀ p ∈ qc0, EntryInv p) :
    ∀ p ∈ all_quotes.foldl (fun qc run => (run.foldl runStep (qc, [])).1) qc0,
      EntryInv p := by
  induction all_quotes generalizing qc0 with
  | nil => exact hinv
  | cons run rest ih =>
    rw [List.foldl_cons]
    exact ih _ (innerFold_inv run (qc0, []) hinv)

theorem buildCounts_go_nodup (all_quotes : List (List Quote))
    (qc0 : List (String × QData)) (hnd : (qc0.map Prod.fst).Nodup) :
    ((all_quotes.foldl (fun qc run => (run.foldl runStep (qc, [])).1) qc0).map
      Prod.fst).Nodup := by
  induction all_quotes generalizing qc0 with
  | nil => exact hnd
  | cons run rest ih =>
    rw [List.foldl_cons]
    exact ih _ (innerFold_nodup run (qc0, []) hnd)

theorem buildCounts_go_keys (all_quotes : List (List Quote))
    (qc0 : List (String × QData)) :
    (all_quotes.foldl (fun qc run => (run.foldl runStep (qc, [])).1) qc0).map Prod.fst =
      (scanNorms all_quotes).foldl appendIfNew (qc0.map Prod.fst) := by
  induction all_quotes generalizing qc0 with
  | nil => simp [scanNorms]
  | cons run rest ih =>
    rw [List.foldl_cons, ih]
    have hk := (innerFold_keys run (qc0, []) (by simp)).1
    dsimp only at hk
    rw [hk]
    conv_rhs => rw [scanNorms, List.flatMap_cons, List.foldl_append]
    rfl

theorem buildCounts_entry (all_quotes : List (List Quote)) (p : String × QData)
    (hp : p ∈ buildCounts all_quotes) :
    p.1 = normalize p.2.text ∧ p.1 ≠ "" ∧
      p.2.count =
        all_quotes.countP (fun run => decide (∃ q ∈ run, normalize q.text = p.1)) := by
  have hinv := buildCounts_go_inv all_quotes [] (by simp) p hp
  have hnd := buildCounts_go_nodup all_quotes [] (by simp)
  refine ⟨hinv.1, hinv.2, ?_⟩
  have hlook : lookupQ (buildCounts all_quotes) p.1 = some p.2 := by
    apply lookupQ_of_mem_nodup _ _ _ hnd
    rw [← Prod.mk.eta (p := p)] at hp
    exact hp
  have hcount := buildCounts_go_count all_quotes [] p.1 hinv.2
  unfold buildCounts at hlook
  rw [countAt, hlook] at hcount
  simpa [countAt, lookupQ] using hcount

end Consensus
namespace Consensus

/-- C6: every QuoteConsensus produced by _aggregate_quotes has `appearances`
equal to the number of distinct runs containing a quote with the same
normalized (lowercased, whitespace-collapsed) text — counted at most once per
run however often the text recurs within one run — `appearance_rate` equal to
appearances over total_runs, and, under the default thresholds, rating HIGH
iff rate ≥ 3/4, MEDIUM iff 1/2 ≤ rate < 3/4, LOW otherwise; a quote is never
rated UNKNOWN. -/
theorem aggregate_quotes_spec (all_quotes : List (List Quote)) (n_runs : Nat)
    (qc : QuoteConsensus) (hq : qc ∈ aggregate_quotes all_quotes n_runs DEFAULT_CONFIG) :
    qc.appearances =
      all_quotes.countP
        (fun run => decide (∃ q ∈ run, normalize q.text = normalize qc.text)) ∧
    qc.total_runs = n_runs ∧
    qc.appearance_rate = (qc.appearances : ℚ) / (n_runs : ℚ) ∧
    (qc.stability = .high ↔ 3/4 ≤ qc.appearance_rate) ∧
    (qc.stability = .medium ↔ 1/2 ≤ qc.appearance_rate ∧ qc.appearance_rate < 3/4) ∧
    (qc.stability = .low ↔ qc.appearance_rate < 1/2) ∧
    qc.stability ≠ .unknown := by
  rw [aggregate_quotes, List.mem_mergeSort, preQuotes, List.mem_map] at hq
  obtain ⟨p, hp, he⟩ := hq
  obtain ⟨h1, h2, h3⟩ := buildCounts_entry all_quotes p hp
  subst he
  dsimp only
  have hsr : quoteRating ((p.2.count : ℚ) / (n_runs : ℚ)) DEFAULT_CONFIG =
      (if (3/4 : ℚ) ≤ (p.2.count : ℚ) / (n_runs : ℚ) then StabilityRating.high
       else if (1/2 : ℚ) ≤ (p.2.count : ℚ) / (n_runs : ℚ) then .medium else .low) := rfl
  rw [hsr]
  set rate : ℚ := (p.2.count : ℚ) / (n_runs : ℚ) with hrdef
  refine ⟨?_, rfl, rfl, ?_, ?_, ?_, ?_⟩
  · rw [h3, h1]
  · by_cases hh : (3/4 : ℚ) ≤ rate
    · rw [if_pos hh]
      exact ⟨fun _ => hh, fun _ => rfl⟩
    · rw [if_neg hh]
      by_cases hm : (1/2 : ℚ) ≤ rate
      · rw [if_pos hm]
        exact ⟨fun hx => absurd hx (by simp), fun hx => absurd hx hh⟩
      · rw [if_neg hm]
        exact ⟨fun hx => absurd hx (by simp), fun hx => absurd hx hh⟩
  · by_cases hh : (3/4 : ℚ) ≤ rate
    · rw [if_pos hh]
      exact ⟨fun hx => absurd hx (by simp), fun hx => absurd hx.2 (not_lt.mpr hh)⟩
    · rw [if_neg hh]
      by_cases hm : (1/2 : ℚ) ≤ rate
      · rw [if_pos hm]
        exact ⟨fun _ => ⟨hm, lt_of_not_le hh⟩, fun _ => rfl⟩
      · rw [if_neg hm]
        exact ⟨fun hx => absurd hx (by simp), fun hx => absurd hx.1 hm⟩
  · by_cases hh : (3/4 : ℚ) ≤ rate
    · rw [if_pos hh]
      refine ⟨fun hx => absurd hx (by simp), fun hx => ?_⟩
      have : (1/2 : ℚ) ≤ rate := le_trans (by norm_num) hh
      exact absurd hx (not_lt.mpr this)
    · rw [if_neg hh]
      by_cases hm : (1/2 : ℚ) ≤ rate
      · rw [if_pos hm]
        exact ⟨fun hx => absurd hx (by simp), fun hx => absurd hx (not_lt.mpr hm)⟩
      · rw [if_neg hm]
        exact ⟨fun _ => lt_of_not_le hm, fun _ => rfl⟩
  · by_cases hh : (3/4 : ℚ) ≤ rate
    · rw [if_pos hh]
      simp
    · rw [if_neg hh]
      by_cases hm : (1/2 : ℚ) ≤ rate
      · rw [if_pos hm]
        simp
      · rw [if_neg hm]
        simp

end Consensus
namespace Consensus

/-- C7: the list returned by _aggregate_quotes is sorted by descending
appearance_rate; within any fixed rate the entries appear exactly in the
pre-sort (dict insertion) order, and that order is the first-seen order of
the normalized texts — the fold of append-if-new over the normalized texts
scanned runs in order, each run's quotes in order. -/
theorem aggregate_quotes_sorted (all_quotes : List (List Quote)) (n_runs : Nat)
    (cfg : Config) :
    (aggregate_quotes all_quotes n_runs cfg).Pairwise
      (fun a b => b.appearance_rate ≤ a.appearance_rate) ∧
    (∀ r : ℚ, (aggregate_quotes all_quotes n_runs cfg).filter
        (fun q => decide (q.appearance_rate = r)) =
      (preQuotes all_quotes n_runs cfg).filter (fun q => decide (q.appearance_rate = r))) ∧
    (preQuotes all_quotes n_runs cfg).map (fun q => normalize q.text) =
      firstSeen (scanNorms all_quotes) := by
  have trans : ∀ (a b c : QuoteConsensus),
      (fun a b => decide (b.appearance_rate ≤ a.appearance_rate)) a b →
      (fun a b => decide (b.appearance_rate ≤ a.appearance_rate)) b c →
      (fun a b => decide (b.appearance_rate ≤ a.appearance_rate)) a c := by
    intro a b c hab hbc
    simp only [decide_eq_true_eq] at hab hbc ⊢
    exact le_trans hbc hab
  have total : ∀ (a b : QuoteConsensus),
      ((fun a b => decide (b.appearance_rate ≤ a.appearance_rate)) a b ||
       (fun a b => decide (b.appearance_rate ≤ a.appearance_rate)) b a) := by
    intro a b
    simp only [Bool.or_eq_true, decide_eq_true_eq]
    exact le_total _ _
  refine ⟨?_, ?_, ?_⟩
  · have hs := List.sorted_mergeSort trans total (preQuotes all_quotes n_runs cfg)
    rw [aggregate_quotes]
    exact hs.imp (fun h => of_decide_eq_true h)
  · intro r
    set pr := fun q : QuoteConsensus => decide (q.appearance_rate = r) with hpr
    set c := (preQuotes all_quotes n_runs cfg).filter pr with hc
    have hrate : ∀ x ∈ c, x.appearance_rate = r := by
      intro x hx
      have := (List.mem_filter.mp hx).2
      rwa [hpr, decide_eq_true_eq] at this
    have hcpw : c.Pairwise
        (fun a b => (fun a b => decide (b.appearance_rate ≤ a.appearance_rate)) a b) := by
      apply List.pairwise_of_forall_mem_list
      intro a ha b hb
      simp only [decide_eq_true_eq]
      rw [hrate a ha, hrate b hb]
    have hsub : List.Sublist c (aggregate_quotes all_quotes n_runs cfg) := by
      rw [aggregate_quotes]
      exact List.sublist_mergeSort trans total hcpw (List.filter_sublist _)
    have hfil : c.filter pr = c := by
      rw [List.filter_eq_self]
      intro x hx
      exact (List.mem_filter.mp hx).2
    have hsub2 : List.Sublist c ((aggregate_quotes all_quotes n_runs cfg).filter pr) := by
      have := hsub.filter pr
      rwa [hfil] at this
    have hperm : List.Perm ((aggregate_quotes all_quotes n_runs cfg).filter pr) c := by
      rw [aggregate_quotes, hc]
      exact (List.mergeSort_perm _ _).filter pr
    exact (hsub2.eq_of_length hperm.length_eq.symm).symm
  · rw [preQuotes, List.map_map]
    have hmap : ∀ p ∈ buildCounts all_quotes,
        (fun p : String × QData => normalize p.2.text) p = Prod.fst p := by
      intro p hp
      exact ((buildCounts_entry all_quotes p hp).1).symm
    calc (buildCounts all_quotes).map _ = (buildCounts all_quotes).map Prod.fst :=
          List.map_congr_left hmap
      _ = firstSeen (scanNorms all_quotes) := by
          have := buildCounts_go_keys all_quotes []
          rw [buildCounts]
          simpa [firstSeen] using this

end Consensus

namespace Consensus

/-- Witness for aggregate_quotes_spec: one run containing one quote. -/
theorem aggregate_quotes_spec_witness :
    (({ text := "Life is good", informant := "A", context := "c", appearances := 1, total_runs := 1, appearance_rate := 1, stability := .high } : QuoteConsensus) ∈ aggregate_quotes [[⟨"Life is good", "A", "c"⟩]] 1 DEFAULT_CONFIG) ∧
    (({ text := "Life is good", informant := "A", context := "c", appearances := 1, total_runs := 1, appearance_rate := 1, stability := .high } : QuoteConsensus).appearances = [[(⟨"Life is good", "A", "c"⟩ : Quote)]].countP (fun run => decide (∃ q ∈ run, normalize q.text = normalize ({ text := "Life is good", informant := "A", context := "c", appearances := 1, total_runs := 1, appearance_rate := 1, stability := .high } : QuoteConsensus).text)) ∧
     ({ text := "Life is good", informant := "A", context := "c", appearances := 1, total_runs := 1, appearance_rate := 1, stability := .high } : QuoteConsensus).total_runs = 1 ∧
     ({ text := "Life is good", informant := "A", context := "c", appearances := 1, total_runs := 1, appearance_rate := 1, stability := .high } : QuoteConsensus).appearance_rate = ((({ text := "Life is good", informant := "A", context := "c", appearances := 1, total_runs := 1, appearance_rate := 1, stability := .high } : QuoteConsensus).appearances : ℚ) / ((1 : Nat) : ℚ)) ∧
     (({ text := "Life is good", informant := "A", context := "c", appearances := 1, total_runs := 1, appearance_rate := 1, stability := .high } : QuoteConsensus).stability = .high ↔ 3/4 ≤ ({ text := "Life is good", informant := "A", context := "c", appearances := 1, total_runs := 1, appearance_rate := 1, stability := .high } : QuoteConsensus).appearance_rate) ∧
     (({ text := "Life is good", informant := "A", context := "c", appearances := 1, total_runs := 1, appearance_rate := 1, stability := .high } : QuoteConsensus).stability = .medium ↔ 1/2 ≤ ({ text := "Life is good", informant := "A", context := "c", appearances := 1, total_runs := 1, appearance_rate := 1, stability := .high } : QuoteConsensus).appearance_rate ∧ ({ text := "Life is good", informant := "A", context := "c", appearances := 1, total_runs := 1, appearance_rate := 1, stability := .high } : QuoteConsensus).appearance_rate < 3/4) ∧
     (({ text := "Life is good", informant := "A", context := "c", appearances := 1, total_runs := 1, appearance_rate := 1, stability := .high } : QuoteConsensus).stability = .low ↔ ({ text := "Life is good", informant := "A", context := "c", appearances := 1, total_runs := 1, appearance_rate := 1, stability := .high } : QuoteConsensus).appearance_rate < 1/2) ∧
     ({ text := "Life is good", informant := "A", context := "c", appearances := 1, total_runs := 1, appearance_rate := 1, stability := .high } : QuoteConsensus).stability ≠ .unknown) := by
  have hagg : aggregate_quotes [[(⟨"Life is good", "A", "c"⟩ : Quote)]] 1 DEFAULT_CONFIG = [({ text := "Life is good", informant := "A", context := "c", appearances := 1, total_runs := 1, appearance_rate := 1, stability := .high } : QuoteConsensus)] := by
    with_unfolding_all rfl
  have hmem : ({ text := "Life is good", informant := "A", context := "c", appearances := 1, total_runs := 1, appearance_rate := 1, stability := .high } : QuoteConsensus) ∈ aggregate_quotes [[⟨"Life is good", "A", "c"⟩]] 1 DEFAULT_CONFIG := by
    rw [hagg]
    exact List.mem_singleton.mpr rfl
  exact ⟨hmem, aggregate_quotes_spec _ _ _ hmem⟩

end Consensus

namespace Consensus

/-- Witness for extract_quotes_dash_dedup at a dash-attributed response. -/
theorem extract_quotes_dash_dedup_witness :
    ∃ added, extract_quotes "\"this is a dash quote here\" - Informant 3" =
        quotesPhase12 "\"this is a dash quote here\" - Informant 3" ++ added ∧
      added.Pairwise (fun a b => a.text ≠ b.text) ∧
      (∀ q ∈ added, ∀ p ∈ quotesPhase12 "\"this is a dash quote here\" - Informant 3",
        q.text ≠ p.text) :=
  extract_quotes_dash_dedup "\"this is a dash quote here\" - Informant 3"

/-- Witness for aggregate_quotes_sorted at one run containing one quote. -/
theorem aggregate_quotes_sorted_witness :
    (aggregate_quotes [[⟨"Life is grand", "B", "c"⟩]] 1 DEFAULT_CONFIG).Pairwise
      (fun a b => b.appearance_rate ≤ a.appearance_rate) ∧
    (∀ r : ℚ, (aggregate_quotes [[⟨"Life is grand", "B", "c"⟩]] 1 DEFAULT_CONFIG).filter
        (fun q => decide (q.appearance_rate = r)) =
      (preQuotes [[⟨"Life is grand", "B", "c"⟩]] 1 DEFAULT_CONFIG).filter
        (fun q => decide (q.appearance_rate = r))) ∧
    (preQuotes [[⟨"Life is grand", "B", "c"⟩]] 1 DEFAULT_CONFIG).map
        (fun q => normalize q.text) =
      firstSeen (scanNorms [[⟨"Life is grand", "B", "c"⟩]]) :=
  aggregate_quotes_sorted [[⟨"Life is grand", "B", "c"⟩]] 1 DEFAULT_CONFIG

end Consensus
